import Mathlib

/-!
Shallow embedding of the competitor-intel extraction-to-reconciliation
pipeline: change detection (`src/lib/change-detection.ts`), price/field
normalization (`src/lib/normalize.ts`), the scraper cleaning and run
pipeline (`src/scrapers/base-scraper.ts`) and the retrying fetch wrapper
(`src/core/fetch-with-retry.ts`). JS numbers are modelled as `ℚ`,
nullable values as `Option`, and JS `Map` as an association list updated
in place (insertion order preserved, `set` on an existing key overwrites
the value at its original position).
-/

namespace CompetitorIntel

/-- The four change event kinds of `inventory_changes.change_type`. -/
inductive ChangeType where
  | NEW_LISTING
  | PRICE_DROP
  | PRICE_INCREASE
  | REMOVED
deriving DecidableEq

/-- `CleanInventoryItem` from `src/types/database.ts` (DB-ready item). -/
structure CleanInventoryItem where
  company_id : String
  competitor_name : String
  title : Option String
  make : Option String
  model : Option String
  type : Option String
  price : Option ℚ
  stock_number : String
  condition : Option String
  status : String
  floor_length : Option String
  gvwr : Option String
  color : Option String
  pull_type : Option String
  size : Option String
  url : Option String
  scraped_at : String
  updated_at : String
deriving DecidableEq

/-- The row shape `detectChanges` selects from `competitor_inventory`
(`stock_number, price, title, status`). -/
structure ExistingRow where
  stock_number : String
  price : Option ℚ
  title : Option String
  status : Option String
deriving DecidableEq

/-- `Omit<InventoryChange, 'id' | 'detected_at'>`: a change event as built
by `detectChanges` before insertion. -/
structure InventoryChange where
  company_id : String
  competitor_name : String
  trailer_title : Option String
  stock_number : String
  change_type : ChangeType
  old_price : Option ℚ
  new_price : Option ℚ
deriving DecidableEq

/-- Result shape of `detectChanges`. -/
structure ChangeDetectionResult where
  changes : List InventoryChange
  newCount : ℕ
  priceDropCount : ℕ
  priceIncreaseCount : ℕ
  removedCount : ℕ
deriving DecidableEq

/-- JS `Map.set` on an association list: overwrite the value at the key's
original insertion position, or append a fresh binding at the end. -/
def listSet {β : Type} : List (String × β) → String → β → List (String × β)
  | [], k, v => [(k, v)]
  | p :: rest, k, v => if p.1 = k then (k, v) :: rest else p :: listSet rest k v

/-- JS `Map.get`: value of the first (and, in a real map, only) binding. -/
def lookupM {β : Type} (m : List (String × β)) (k : String) : Option β :=
  (m.find? (fun p => p.1 = k)).map (fun p => p.2)

/-- `existingMap`: `(existing || []).forEach(r => existingMap.set(r.stock_number, r))`. -/
def buildMap (rows : List ExistingRow) : List (String × ExistingRow) :=
  rows.foldl (fun m r => listSet m r.stock_number r) []

/-- The event `detectChanges` pushes for one scraped item, if any:
`NEW_LISTING` when the stock number is absent from the map, a price event
when both prices are non-null and differ, nothing otherwise. -/
def itemEvent (companyId competitorName : String)
    (existingMap : List (String × ExistingRow)) (item : CleanInventoryItem) :
    Option InventoryChange :=
  match lookupM existingMap item.stock_number with
  | none => some
      { company_id := companyId, competitor_name := competitorName,
        trailer_title := item.title, stock_number := item.stock_number,
        change_type := .NEW_LISTING, old_price := none, new_price := item.price }
  | some prev =>
    match prev.price, item.price with
    | some oldP, some newP =>
      if newP < oldP then some
        { company_id := companyId, competitor_name := competitorName,
          trailer_title := item.title, stock_number := item.stock_number,
          change_type := .PRICE_DROP, old_price := some oldP, new_price := some newP }
      else if oldP < newP then some
        { company_id := companyId, competitor_name := competitorName,
          trailer_title := item.title, stock_number := item.stock_number,
          change_type := .PRICE_INCREASE, old_price := some oldP, new_price := some newP }
      else none
    | _, _ => none

/-- The `REMOVED` event for one map entry whose key is absent from the
scraped stock set, if any. -/
def removedEvent (companyId competitorName : String)
    (scrapedStocks : List String) (p : String × ExistingRow) :
    Option InventoryChange :=
  if p.1 ∈ scrapedStocks then none
  else some
    { company_id := companyId, competitor_name := competitorName,
      trailer_title := p.2.title, stock_number := p.1,
      change_type := .REMOVED, old_price := p.2.price, new_price := none }

/-- Pure core of `detectChanges` (`src/lib/change-detection.ts`): the DB
fetch result is passed in as `existing` (already filtered to
`status != 'Sold'` by the query). -/
def detectChanges (companyId competitorName : String)
    (existing : List ExistingRow) (scrapedItems : List CleanInventoryItem) :
    ChangeDetectionResult :=
  let existingMap := buildMap existing
  let scrapedStocks := scrapedItems.map (fun i => i.stock_number)
  let changes :=
    scrapedItems.filterMap (itemEvent companyId competitorName existingMap) ++
    existingMap.filterMap (removedEvent companyId competitorName scrapedStocks)
  { changes := changes,
    newCount := (changes.filter (fun c => c.change_type = .NEW_LISTING)).length,
    priceDropCount := (changes.filter (fun c => c.change_type = .PRICE_DROP)).length,
    priceIncreaseCount := (changes.filter (fun c => c.change_type = .PRICE_INCREASE)).length,
    removedCount := (changes.filter (fun c => c.change_type = .REMOVED)).length }

/-- `RawInventoryItem` from `src/types/database.ts`: a raw scraped record.
`price?: string | number | null` is modelled as `Option (String ⊕ ℚ)`. -/
structure RawInventoryItem where
  title : Option String
  make : Option String
  model : Option String
  type : Option String
  price : Option (String ⊕ ℚ)
  stock_number : String
  condition : Option String
  floor_length : Option String
  gvwr : Option String
  color : Option String
  pull_type : Option String
  size : Option String
  url : Option String
  year : Option String
deriving DecidableEq

/-- JS truthiness of a nullable string: `undefined`, `null` and `""` are falsy. -/
def jsTruthy (o : Option String) : Bool :=
  match o with
  | some s => s ≠ ""
  | none => false

/-- JS `a || b` for a nullable string `a` and a string `b`. -/
def jsOrString (a : Option String) (b : String) : String :=
  match a with
  | some s => if s = "" then b else s
  | none => b

/-- `titleCase` from `src/lib/normalize.ts`: lower-case, then capitalize the
first character of every space-separated word (ASCII case model). -/
def titleCase (s : String) : String :=
  String.intercalate " "
    ((s.toLower.splitOn " ").map (fun w =>
      match w.data with
      | [] => ""
      | c :: rest => String.mk (c.toUpper :: rest)))

/-- The `TYPE_MAP` synonym table of `src/lib/normalize.ts`. -/
def typeMap (key : String) : Option String :=
  match key with
  | "utility trailer" => some "Utility"
  | "utility" => some "Utility"
  | "landscape trailer" => some "Utility"
  | "landscape" => some "Utility"
  | "pipe top utility" => some "Utility"
  | "enclosed trailer" => some "Enclosed"
  | "enclosed" => some "Enclosed"
  | "cargo trailer" => some "Enclosed"
  | "cargo" => some "Enclosed"
  | "cargo/enclosed" => some "Enclosed"
  | "enclosed cargo" => some "Enclosed"
  | "vending trailer" => some "Enclosed"
  | "concession trailer" => some "Enclosed"
  | "dump trailer" => some "Dump"
  | "dump" => some "Dump"
  | "low profile dump" => some "Dump"
  | "dump equipment" => some "Dump"
  | "equipment trailer" => some "Equipment"
  | "equipment" => some "Equipment"
  | "flatbed trailer" => some "Flatbed"
  | "flatbed" => some "Flatbed"
  | "deckover" => some "Flatbed"
  | "deckover equipment" => some "Flatbed"
  | "tilt" => some "Tilt"
  | "tilt trailer" => some "Tilt"
  | "gooseneck trailer" => some "Gooseneck"
  | "gooseneck" => some "Gooseneck"
  | "gooseneck dump" => some "Gooseneck Dump"
  | "gooseneck equipment" => some "Gooseneck Equipment"
  | "gooseneck flatbed" => some "Gooseneck Flatbed"
  | "car hauler" => some "Car Hauler"
  | "car hauler trailer" => some "Car Hauler"
  | "auto transport" => some "Car Hauler"
  | "livestock trailer" => some "Livestock"
  | "livestock" => some "Livestock"
  | "horse trailer" => some "Livestock"
  | "aluminum trailer" => some "Aluminum"
  | "aluminum" => some "Aluminum"
  | _ => none

/-- The JS whitespace class `\s` (ASCII part), as matched by both
`String.prototype.trim` and the price regex. -/
def jsSpace (c : Char) : Bool :=
  c = ' ' || c = '\t' || c = '\n' || c = '\r' || c = '\x0b' || c = '\x0c'

/-- JS `String.prototype.trim`: strip leading and trailing whitespace. -/
def jsTrim (s : String) : String :=
  String.mk (((s.data.dropWhile jsSpace).reverse.dropWhile jsSpace).reverse)

/-- `normalizeType` from `src/lib/normalize.ts`. -/
def normalizeType (raw : Option String) : Option String :=
  match raw with
  | none => none
  | some s =>
    if s = "" then none
    else
      match typeMap (jsTrim s.toLower) with
      | some v => some v
      | none => some (titleCase (jsTrim s))

/-- `normalizeMake` from `src/lib/normalize.ts`. -/
def normalizeMake (raw : Option String) : Option String :=
  match raw with
  | none => none
  | some s => if s = "" then none else some (titleCase (jsTrim s))

/-- The characters removed by `raw.replace(/[$,\s]/g, '')`. -/
def strippedChar (c : Char) : Bool :=
  c = '$' || c = ',' || jsSpace c

/-- Apply `replace(/[$,\s]/g, '')` to a string. -/
def stripPriceChars (s : String) : String :=
  String.mk (s.data.filter (fun c => !strippedChar c))

/-- Numeric value of a digit run. -/
def digitsVal (ds : List Char) : ℕ :=
  ds.foldl (fun n c => 10 * n + (c.toNat - 48)) 0

/-- Signed exponent suffix of a JS float literal: `[+-]?digits`, taken as 0
when no digit follows (`parseFloat` then ignores the `e`). -/
def expVal (cs : List Char) : ℤ :=
  match cs with
  | '+' :: r =>
    let ds := r.takeWhile Char.isDigit
    if ds.isEmpty then 0 else (digitsVal ds : ℤ)
  | '-' :: r =>
    let ds := r.takeWhile Char.isDigit
    if ds.isEmpty then 0 else -(digitsVal ds : ℤ)
  | _ =>
    let ds := cs.takeWhile Char.isDigit
    if ds.isEmpty then 0 else (digitsVal ds : ℤ)

/-- JS `parseFloat` on an already-whitespace-free string (the only caller
strips all whitespace first): longest prefix of the form
`[+-]? (digits [. digits] | . digits) [(e|E) [+-]? digits]`, `NaN`
(modelled as `none`) when no digit is found. The value
`sign * (intdigits.fracdigits) * 10 ^ exp` is built exactly with `mkRat`
(idealizing binary-float rounding to exact rationals). The `Infinity`
literal is not modelled. -/
def jsParseFloat (s : String) : Option ℚ :=
  let rec core (sign : ℤ) (cs : List Char) : Option ℚ :=
    let ip := cs.takeWhile Char.isDigit
    let rest1 := cs.dropWhile Char.isDigit
    let fp :=
      match rest1 with
      | '.' :: r => r.takeWhile Char.isDigit
      | _ => []
    let rest2 :=
      match rest1 with
      | '.' :: r => r.dropWhile Char.isDigit
      | _ => rest1
    if ip.isEmpty ∧ fp.isEmpty then none
    else
      let mantNum : ℤ := (digitsVal ip * 10 ^ fp.length + digitsVal fp : ℕ)
      let e : ℤ :=
        match rest2 with
        | 'e' :: r => expVal r
        | 'E' :: r => expVal r
        | _ => 0
      some (if 0 ≤ e
        then mkRat (sign * mantNum * (10 : ℤ) ^ e.toNat) (10 ^ fp.length)
        else mkRat (sign * mantNum) (10 ^ fp.length * 10 ^ (-e).toNat))
  match s.data with
  | '+' :: r => core 1 r
  | '-' :: r => core (-1) r
  | cs => core 1 cs

/-- `parsePrice` from `src/lib/normalize.ts`. -/
def parsePrice (raw : Option (String ⊕ ℚ)) : Option ℚ :=
  match raw with
  | none => none
  | some (Sum.inr n) => if n > 0 then some n else none
  | some (Sum.inl s) =>
    match jsParseFloat (stripPriceChars s) with
    | none => none
    | some num => if num ≤ 0 then none else some num

/-- `buildTitle` from `src/lib/normalize.ts`. -/
def buildTitle (item : RawInventoryItem) : String :=
  let parts := [item.year, item.make,
      if jsTruthy item.model then item.model else item.size,
      item.type].filterMap (fun o => if jsTruthy o then o else none)
  let joined := String.intercalate " " parts
  if joined = "" then "Unknown Trailer" else joined

/-- `item.x?.trim() || null`. -/
def optTrimOrNull (o : Option String) : Option String :=
  match o with
  | none => none
  | some s => if jsTrim s = "" then none else some (jsTrim s)

/-- `BaseScraper.cleanItems` (`src/scrapers/base-scraper.ts`): keep records
with a truthy `stock_number`, normalize fields, stamp status `Available`. -/
def cleanItems (companyId competitorName now : String)
    (rawItems : List RawInventoryItem) : List CleanInventoryItem :=
  (rawItems.filter (fun item => item.stock_number ≠ "")).map (fun item =>
    { company_id := companyId,
      competitor_name := competitorName,
      title := some (jsOrString item.title (buildTitle item)),
      make := normalizeMake item.make,
      model := optTrimOrNull item.model,
      type := normalizeType item.type,
      price := parsePrice item.price,
      stock_number := jsTrim item.stock_number,
      condition := optTrimOrNull item.condition,
      status := "Available",
      floor_length := optTrimOrNull item.floor_length,
      gvwr := optTrimOrNull item.gvwr,
      color := optTrimOrNull item.color,
      pull_type := optTrimOrNull item.pull_type,
      size := optTrimOrNull item.size,
      url := optTrimOrNull item.url,
      scraped_at := now,
      updated_at := now })

/-- The dedup step of `upsertInventory`: `items.forEach(i => byStock.set(i.stock_number, i))`
followed by `[...byStock.values()]` (last occurrence wins, insertion order
of first occurrence preserved). -/
def dedupeByStock (items : List CleanInventoryItem) : List CleanInventoryItem :=
  (items.foldl (fun m i => listSet m i.stock_number i) []).map Prod.snd

/-- The batching loop of `upsertInventory`: successive slices of `n`
items (`dedupedItems.slice(i, i + BATCH_SIZE)` for `i = 0, n, 2n, ...`). -/
def chunksOf (n : ℕ) (l : List α) : List (List α) :=
  match l with
  | [] => []
  | x :: xs => (x :: xs.take (n - 1)) :: chunksOf n (xs.drop (n - 1))
termination_by l.length
decreasing_by
  simp only [List.length_cons, List.length_drop]
  omega

/-- `BATCH_SIZE` of `upsertInventory`. -/
def BATCH_SIZE : ℕ := 500

/-- One row upserted with `onConflict: 'company_id,competitor_name,stock_number'`:
for a fixed company and competitor, the conflicting row (same stock number)
is replaced, otherwise the row is inserted. -/
def upsertRow (rows : List CleanInventoryItem) (item : CleanInventoryItem) :
    List CleanInventoryItem :=
  if rows.any (fun r => r.stock_number = item.stock_number) then
    rows.map (fun r => if r.stock_number = item.stock_number then item else r)
  else
    rows ++ [item]

/-- Effect of the upsert phase of `upsertInventory` on the
`competitor_inventory` rows of one (company, competitor): dedup by stock
number, then upsert row by row (chunking into batches of 500 does not
change the final state, proved separately). -/
def upsertState (rows : List CleanInventoryItem)
    (items : List CleanInventoryItem) : List CleanInventoryItem :=
  (dedupeByStock items).foldl upsertRow rows

/-- Effect of the `update({ status: 'Sold', updated_at: now })
.in('stock_number', removedStockNumbers)` phase of `upsertInventory`. -/
def markSold (rows : List CleanInventoryItem) (removed : List String)
    (now : String) : List CleanInventoryItem :=
  rows.map (fun r =>
    if r.stock_number ∈ removed then
      { r with status := "Sold", updated_at := now }
    else r)

/-- Projection of a stored `competitor_inventory` row to the columns
`detectChanges` selects. -/
def toExistingRow (r : CleanInventoryItem) : ExistingRow :=
  { stock_number := r.stock_number, price := r.price,
    title := r.title, status := some r.status }

/-- One detect-and-apply run of the pipeline against the store rows of a
fixed (company, competitor): fetch non-Sold rows, run `detectChanges`,
upsert the batch and mark the `REMOVED` stock numbers as Sold — the data
path of `BaseScraper.run` steps 4–6. `removedStocks` mirrors
`detection.changes.filter(c => c.change_type === 'REMOVED').map(c => c.stock_number!).filter(Boolean)`. -/
def runDetectApply (companyId competitorName : String)
    (rows : List CleanInventoryItem) (batch : List CleanInventoryItem)
    (now : String) : List InventoryChange × List CleanInventoryItem :=
  let existing := (rows.filter (fun r => r.status ≠ "Sold")).map toExistingRow
  let det := detectChanges companyId competitorName existing batch
  let removedStocks :=
    ((det.changes.filter (fun c => c.change_type = .REMOVED)).map
      (fun c => c.stock_number)).filter (fun s => s ≠ "")
  (det.changes, markSold (upsertState rows batch) removedStocks now)

/-- What one `fetch` attempt does underneath `fetchWithRetry`: resolve to a
response (with its `ok` flag and status) or reject (transport failure /
timeout abort). -/
inductive AttemptOutcome where
  | response (ok : Bool) (status : ℕ)
  | throwErr (msg : String)
deriving DecidableEq

/-- The response value `fetchWithRetry` can return. -/
structure FetchResponse where
  ok : Bool
  status : ℕ
deriving DecidableEq

/-- Observable behaviour of one `fetchWithRetry` call: the value returned
or error thrown, the number of attempts made, and the backoff delays in
milliseconds slept between attempts. -/
structure FetchTrace where
  result : Except String FetchResponse
  attempts : ℕ
  delays : List ℕ

/-- The retry loop of `fetchWithRetry` (`src/core/fetch-with-retry.ts`),
indexed by the current `attempt` and the number of attempts remaining
after it (`remaining = maxRetries - attempt`). On the last attempt a
response is returned whether or not it is 2xx; earlier attempts retry
after `1000 * 2 ^ attempt` ms on a rejection or a non-ok response. -/
def fetchGo (f : ℕ → AttemptOutcome) (attempt : ℕ) :
    (remaining : ℕ) → FetchTrace
  | 0 =>
    match f attempt with
    | .response ok status => ⟨.ok ⟨ok, status⟩, 1, []⟩
    | .throwErr msg => ⟨.error msg, 1, []⟩
  | r + 1 =>
    match f attempt with
    | .response true status => ⟨.ok ⟨true, status⟩, 1, []⟩
    | .response false _ =>
      let rest := fetchGo f (attempt + 1) r
      ⟨rest.result, rest.attempts + 1, 1000 * 2 ^ attempt :: rest.delays⟩
    | .throwErr _ =>
      let rest := fetchGo f (attempt + 1) r
      ⟨rest.result, rest.attempts + 1, 1000 * 2 ^ attempt :: rest.delays⟩

/-- `fetchWithRetry(url, { maxRetries })` with the underlying per-attempt
outcomes given by `f`. -/
def fetchWithRetry (f : ℕ → AttemptOutcome) (maxRetries : ℕ) : FetchTrace :=
  fetchGo f 0 maxRetries

/-- An attempt outcome counted as a failure: rejection or non-2xx. -/
def attemptFailed (o : AttemptOutcome) : Prop :=
  match o with
  | .response ok _ => ok = false
  | .throwErr _ => True

instance (o : AttemptOutcome) : Decidable (attemptFailed o) := by
  unfold attemptFailed
  cases o <;> infer_instance

/-- Outcomes of the effectful stages of one `BaseScraper.run`, passed in as
data: the site scrape, the `competitor_inventory` select backing
`detectChanges`, the `inventory_changes` insert backing `writeChanges`,
the first failing upsert batch (if any) and the mark-Sold update of
`upsertInventory`. -/
structure RunEnv where
  scrape : Except String (List RawInventoryItem)
  fetchExisting : Except String (List ExistingRow)
  insertChanges : Except String Unit
  upsertBatches : Except String Unit
  markSoldUpdate : Except String Unit

/-- Terminal update written to the `scrape_jobs` row. -/
inductive JobStatus where
  | success (items_found changes_detected : ℕ)
  | failed (error_message : String)
deriving DecidableEq

/-- `ScrapeResult` returned by `BaseScraper.run` (`durationMs` is wall-clock
time and not modelled). -/
structure ScrapeResult where
  competitorName : String
  itemsFound : ℕ
  changesDetected : ℕ
  newListings : ℕ
  priceDrops : ℕ
  priceIncreases : ℕ
  removed : ℕ
  error : Option String
deriving DecidableEq

/-- The all-zero `ScrapeResult` built in the catch block of `run`. -/
def errResult (name msg : String) : ScrapeResult :=
  { competitorName := name, itemsFound := 0, changesDetected := 0,
    newListings := 0, priceDrops := 0, priceIncreases := 0, removed := 0,
    error := some msg }

/-- `BaseScraper.run` (`src/scrapers/base-scraper.ts`): scrape, clean,
detect, write changes, upsert + mark Sold; the first raising stage sends
the job to `failed` with the captured message and the catch block returns
the zeroed result. Error-message prefixes follow `detectChanges`,
`writeChanges` and `upsertInventory`; `writeChanges` touches the DB only
for a non-empty change list, the upsert loop only for a non-empty deduped
batch, the mark-Sold update only for a non-empty removed list. -/
def runPipeline (env : RunEnv) (companyId name now : String) :
    JobStatus × ScrapeResult :=
  match env.scrape with
  | .error e => (.failed e, errResult name e)
  | .ok raw =>
    let items := cleanItems companyId name now raw
    match env.fetchExisting with
    | .error e =>
      let msg := "Failed to fetch existing inventory: " ++ e
      (.failed msg, errResult name msg)
    | .ok existing =>
      let det := detectChanges companyId name existing items
      let writeRes : Except String Unit :=
        if det.changes.isEmpty then .ok ()
        else
          match env.insertChanges with
          | .ok _ => .ok ()
          | .error m => .error ("Failed to write changes: " ++ m)
      match writeRes with
      | .error e => (.failed e, errResult name e)
      | .ok _ =>
        let upsertRes : Except String Unit :=
          if (dedupeByStock items).isEmpty then .ok ()
          else
            match env.upsertBatches with
            | .ok _ => .ok ()
            | .error m => .error ("Upsert batch failed: " ++ m)
        match upsertRes with
        | .error e => (.failed e, errResult name e)
        | .ok _ =>
          let removedStocks :=
            ((det.changes.filter (fun c => c.change_type = .REMOVED)).map
              (fun c => c.stock_number)).filter (fun s => s ≠ "")
          let markRes : Except String Unit :=
            if removedStocks.isEmpty then .ok ()
            else
              match env.markSoldUpdate with
              | .ok _ => .ok ()
              | .error m => .error ("Failed to mark removed items: " ++ m)
          match markRes with
          | .error e => (.failed e, errResult name e)
          | .ok _ =>
            (.success items.length det.changes.length,
             { competitorName := name, itemsFound := items.length,
               changesDetected := det.changes.length,
               newListings := det.newCount, priceDrops := det.priceDropCount,
               priceIncreases := det.priceIncreaseCount,
               removed := det.removedCount, error := none })

/-- Concrete cleaned item used in concrete evaluations. -/
def sampleItem (k : String) (p : Option ℚ) : CleanInventoryItem :=
  { company_id := "c1", competitor_name := "dealer", title := some "t",
    make := none, model := none, type := none, price := p, stock_number := k,
    condition := none, status := "Available", floor_length := none,
    gvwr := none, color := none, pull_type := none, size := none, url := none,
    scraped_at := "s0", updated_at := "s0" }

/-- Concrete stored row used in concrete evaluations. -/
def sampleRow (k : String) (p : Option ℚ) : ExistingRow :=
  { stock_number := k, price := p, title := some "t", status := some "Available" }

/-- Concrete raw record used in concrete evaluations. -/
def sampleRaw (k : String) : RawInventoryItem :=
  { title := none, make := none, model := none, type := none, price := none,
    stock_number := k, condition := none, floor_length := none, gvwr := none,
    color := none, pull_type := none, size := none, url := none, year := none }

/-- The cleaned form of `sampleRaw "A1"` under company `c1`, dealer
`dealer`, timestamp `t0`. -/
def sampleCleaned : CleanInventoryItem :=
  { company_id := "c1", competitor_name := "dealer",
    title := some "Unknown Trailer", make := none, model := none,
    type := none, price := none, stock_number := "A1", condition := none,
    status := "Available", floor_length := none, gvwr := none, color := none,
    pull_type := none, size := none, url := none, scraped_at := "t0",
    updated_at := "t0" }

/-- A batch containing two items with the same stock number and different
prices. -/
def dupBatch : List CleanInventoryItem :=
  [sampleItem "A" (some 900), sampleItem "A" (some 800)]

/-- Per-attempt outcomes of a server that always answers HTTP 500. -/
def alwaysHttp500 : ℕ → AttemptOutcome := fun _ => .response false 500

/-- Per-attempt outcomes of a connection that always rejects. -/
def alwaysReject : ℕ → AttemptOutcome := fun _ => .throwErr "socket hang up"

section AssocLemmas

variable {β : Type}

theorem find?_listSet (m : List (String × β)) (k k' : String) (v : β) :
    (listSet m k v).find? (fun p => p.1 = k') =
      if k' = k then some (k, v) else m.find? (fun p => p.1 = k') := by
  induction m with
  | nil =>
    by_cases h : k' = k
    · simp [listSet, h]
    · simp only [listSet, List.find?_nil, if_neg h]
      rw [List.find?_cons_of_neg _ (by simpa using fun h' => h h'.symm)]
      simp
  | cons p rest ih =>
    by_cases hp : p.1 = k
    · simp only [listSet, if_pos hp]
      by_cases h : k' = k
      · rw [if_pos h, List.find?_cons_of_pos _ (by simpa using h.symm)]
      · rw [if_neg h, List.find?_cons_of_neg _ (by simpa using fun h' => h h'.symm),
          List.find?_cons_of_neg _ (by simpa [hp] using fun h' => h h'.symm)]
    · simp only [listSet, if_neg hp]
      by_cases hq : p.1 = k'
      · have h : ¬ k' = k := fun h => hp (hq.trans h)
        rw [if_neg h, List.find?_cons_of_pos _ (by simpa using hq),
          List.find?_cons_of_pos _ (by simpa using hq)]
      · rw [List.find?_cons_of_neg _ (by simpa using hq), ih,
          List.find?_cons_of_neg _ (by simpa using hq)]

theorem lookupM_listSet (m : List (String × β)) (k k' : String) (v : β) :
    lookupM (listSet m k v) k' = if k' = k then some v else lookupM m k' := by
  unfold lookupM
  rw [find?_listSet]
  by_cases h : k' = k <;> simp [h]

theorem listSet_of_not_mem (m : List (String × β)) (k : String) (v : β)
    (h : k ∉ m.map Prod.fst) : listSet m k v = m ++ [(k, v)] := by
  induction m with
  | nil => simp [listSet]
  | cons p rest ih =>
    simp only [List.map_cons, List.mem_cons] at h
    push_neg at h
    have hp : ¬ p.1 = k := fun hp => h.1 hp.symm
    simp only [listSet, if_neg hp, List.cons_append, List.cons.injEq, true_and]
    exact ih h.2

theorem mem_listSet (m : List (String × β)) (k : String) (v : β) (p : String × β)
    (hp : p ∈ listSet m k v) : p = (k, v) ∨ p ∈ m := by
  induction m with
  | nil => simpa [listSet] using hp
  | cons q rest ih =>
    by_cases hq : q.1 = k
    · simp only [listSet, if_pos hq, List.mem_cons] at hp
      rcases hp with h | h
      · exact Or.inl h
      · exact Or.inr (List.mem_cons_of_mem q h)
    · simp only [listSet, if_neg hq, List.mem_cons] at hp
      rcases hp with h | h
      · exact Or.inr (h ▸ List.mem_cons_self q rest)
      · rcases ih h with h' | h'
        · exact Or.inl h'
        · exact Or.inr (List.mem_cons_of_mem q h')

theorem find?_foldl_listSet (key : β → String) (l : List β)
    (m0 : List (String × β)) (k : String) :
    (l.foldl (fun m x => listSet m (key x) x) m0).find? (fun p => p.1 = k) =
      match l.reverse.find? (fun x => key x = k) with
      | some x => some (k, x)
      | none => m0.find? (fun p => p.1 = k) := by
  induction l using List.reverseRecOn with
  | nil => simp
  | append_singleton l x ih =>
    rw [List.foldl_append, List.foldl_cons, List.foldl_nil, find?_listSet,
      List.reverse_append]
    simp only [List.reverse_cons, List.reverse_nil, List.nil_append,
      List.singleton_append]
    by_cases h : key x = k
    · rw [List.find?_cons_of_pos _ (by simp [h]), if_pos h.symm, h]
    · rw [List.find?_cons_of_neg _ (by simp [h]), if_neg (fun h' => h h'.symm), ih]

theorem mem_foldl_listSet (key : β → String) (l : List β)
    (m0 : List (String × β)) (p : String × β)
    (hp : p ∈ l.foldl (fun m x => listSet m (key x) x) m0) :
    p ∈ m0 ∨ (p.1 = key p.2 ∧ p.2 ∈ l) := by
  induction l generalizing m0 with
  | nil => exact Or.inl hp
  | cons x xs ih =>
    rw [List.foldl_cons] at hp
    rcases ih (listSet m0 (key x) x) hp with h | h
    · rcases mem_listSet m0 (key x) x p h with h' | h'
      · subst h'
        exact Or.inr ⟨rfl, List.mem_cons_self x xs⟩
      · exact Or.inl h'
    · exact Or.inr ⟨h.1, List.mem_cons_of_mem x h.2⟩

theorem foldl_listSet_eq_append (key : β → String) (l : List β) :
    ∀ m0 : List (String × β), (∀ x ∈ l, key x ∉ m0.map Prod.fst) →
    (l.map key).Nodup →
    l.foldl (fun m x => listSet m (key x) x) m0 = m0 ++ l.map (fun x => (key x, x)) := by
  induction l with
  | nil => intro m0 _ _; simp
  | cons x xs ih =>
    intro m0 hd hN
    rw [List.foldl_cons, listSet_of_not_mem _ _ _ (hd x (List.mem_cons_self x xs))]
    simp only [List.map_cons, List.nodup_cons] at hN
    rw [ih (m0 ++ [(key x, x)])]
    · simp
    · intro y hy
      simp only [List.map_append, List.mem_append, List.map_cons, List.map_nil]
      push_neg
      refine ⟨fun h => hd y (List.mem_cons_of_mem x hy) h, ?_⟩
      simp only [List.mem_singleton]
      intro h
      exact hN.1 (h ▸ List.mem_map_of_mem key hy)
    · exact hN.2

theorem find?_of_key_nodup (key : β → String) (l : List β) (x : β) (k : String)
    (hN : (l.map key).Nodup) (hx : x ∈ l) (hk : key x = k) :
    l.find? (fun y => key y = k) = some x := by
  induction l with
  | nil => cases hx
  | cons y ys ih =>
    simp only [List.map_cons, List.nodup_cons] at hN
    by_cases hy : key y = k
    · have hxy : x = y := by
        rcases List.mem_cons.mp hx with h | h
        · exact h
        · exact absurd (hy ▸ hk ▸ List.mem_map_of_mem key h) hN.1
      rw [List.find?_cons_of_pos _ (by simp [hy]), hxy]
    · have hx' : x ∈ ys := by
        rcases List.mem_cons.mp hx with h | h
        · exact absurd (h ▸ hk) hy
        · exact h
      rw [List.find?_cons_of_neg _ (by simp [hy]), ih hN.2 hx']

theorem find?_reverse_of_key_nodup (key : β → String) (l : List β) (x : β)
    (k : String) (hN : (l.map key).Nodup) (hx : x ∈ l) (hk : key x = k) :
    l.reverse.find? (fun y => key y = k) = some x := by
  refine find?_of_key_nodup key l.reverse x k ?_ (List.mem_reverse.mpr hx) hk
  rw [List.map_reverse]
  exact List.nodup_reverse.mpr hN

end AssocLemmas

section PhaseLemmas

/-- A filter over a `filterMap` whose predicate only looks at a key the
function carries over unchanged commutes with filtering the inputs. -/
theorem filter_filterMap_key {α β' : Type} (f : α → Option β')
    (keyA : α → String) (keyB : β' → String) (l : List α) (k : String)
    (h : ∀ x e, f x = some e → keyB e = keyA x) :
    (l.filterMap f).filter (fun e => keyB e = k) =
      (l.filter (fun x => keyA x = k)).filterMap f := by
  induction l with
  | nil => simp
  | cons x xs ih =>
    rw [List.filterMap_cons]
    by_cases hx : keyA x = k
    · rw [List.filter_cons_of_pos (by simpa using hx), List.filterMap_cons]
      cases hfx : f x with
      | none => simpa using ih
      | some e =>
        rw [List.filter_cons_of_pos (by simpa using (h x e hfx).trans hx)]
        simpa using ih
    · rw [List.filter_cons_of_neg (by simpa using hx)]
      cases hfx : f x with
      | none => exact ih
      | some e =>
        rw [List.filter_cons_of_neg (by simpa using (h x e hfx).symm ▸ hx)]
        exact ih

theorem filter_key_eq_nil {β : Type} (key : β → String) (l : List β) (k : String)
    (h : k ∉ l.map key) : l.filter (fun y => key y = k) = [] := by
  rw [List.filter_eq_nil_iff]
  intro y hy
  simp only [decide_eq_true_eq]
  intro hk
  exact h (hk ▸ List.mem_map_of_mem key hy)

theorem filter_key_single {β : Type} (key : β → String) (l : List β) (x : β)
    (k : String) (hN : (l.map key).Nodup) (hx : x ∈ l) (hk : key x = k) :
    l.filter (fun y => key y = k) = [x] := by
  induction l with
  | nil => cases hx
  | cons y ys ih =>
    simp only [List.map_cons, List.nodup_cons] at hN
    by_cases hy : key y = k
    · have hxy : x = y := by
        rcases List.mem_cons.mp hx with h | h
        · exact h
        · exact absurd (hy ▸ hk ▸ List.mem_map_of_mem key h) hN.1
      rw [List.filter_cons_of_pos (by simpa using hy), hxy,
        filter_key_eq_nil key ys k (hy ▸ hN.1)]
    · have hx' : x ∈ ys := by
        rcases List.mem_cons.mp hx with h | h
        · exact absurd (h ▸ hk) hy
        · exact h
      rw [List.filter_cons_of_neg (by simpa using hy), ih hN.2 hx']

/-- Any event pushed by the per-item loop carries the item's stock number
and is never `REMOVED`. -/
theorem itemEvent_spec (cid cn : String) (m : List (String × ExistingRow))
    (i : CleanInventoryItem) (e : InventoryChange)
    (h : itemEvent cid cn m i = some e) :
    e.stock_number = i.stock_number ∧ e.change_type ≠ .REMOVED := by
  unfold itemEvent at h
  split at h
  · cases h
    exact ⟨rfl, by simp⟩
  · split at h
    · split at h
      · cases h
        exact ⟨rfl, by simp⟩
      · split at h
        · cases h
          exact ⟨rfl, by simp⟩
        · cases h
    · cases h

/-- Any event pushed by the removed-items loop carries the map entry's key,
is `REMOVED`, and only fires for keys outside the scraped stock set. -/
theorem removedEvent_spec (cid cn : String) (stocks : List String)
    (p : String × ExistingRow) (e : InventoryChange)
    (h : removedEvent cid cn stocks p = some e) :
    e.stock_number = p.1 ∧ e.change_type = .REMOVED ∧ p.1 ∉ stocks := by
  unfold removedEvent at h
  by_cases hp : p.1 ∈ stocks
  · rw [if_pos hp] at h
    cases h
  · rw [if_neg hp] at h
    cases h
    exact ⟨rfl, rfl, hp⟩

end PhaseLemmas

section BuildMapLemmas

theorem lookupM_buildMap (rows : List ExistingRow) (k : String) :
    lookupM (buildMap rows) k =
      rows.reverse.find? (fun r => r.stock_number = k) := by
  unfold buildMap lookupM
  rw [find?_foldl_listSet (fun r => r.stock_number) rows [] k]
  cases rows.reverse.find? (fun r => r.stock_number = k) <;> simp

theorem lookupM_buildMap_of_mem (rows : List ExistingRow) (r : ExistingRow)
    (hN : (rows.map (fun r => r.stock_number)).Nodup) (hr : r ∈ rows) :
    lookupM (buildMap rows) r.stock_number = some r := by
  rw [lookupM_buildMap]
  exact find?_reverse_of_key_nodup (fun r => r.stock_number) rows r _ hN hr rfl

theorem lookupM_buildMap_of_not_mem (rows : List ExistingRow) (k : String)
    (hk : k ∉ rows.map (fun r => r.stock_number)) :
    lookupM (buildMap rows) k = none := by
  rw [lookupM_buildMap, List.find?_eq_none]
  intro x hx
  simp only [decide_eq_true_eq]
  intro h
  exact hk (h ▸ List.mem_map_of_mem _ (List.mem_reverse.mp hx))

theorem buildMap_eq_map_pair (rows : List ExistingRow)
    (hN : (rows.map (fun r => r.stock_number)).Nodup) :
    buildMap rows = rows.map (fun r => (r.stock_number, r)) := by
  unfold buildMap
  rw [foldl_listSet_eq_append (fun r => r.stock_number) rows [] (by simp) hN]
  simp

end BuildMapLemmas

section ChangeFilterLemmas

/-- For a key present in the scraped batch, the changes carrying that key
all come from the per-item loop (the removed loop never fires for it). -/
theorem changes_filter_key_of_mem_scraped (cid cn : String)
    (existing : List ExistingRow) (scraped : List CleanInventoryItem)
    (k : String) (hks : k ∈ scraped.map (fun i => i.stock_number)) :
    (detectChanges cid cn existing scraped).changes.filter
      (fun e => e.stock_number = k) =
      (scraped.filter (fun x => x.stock_number = k)).filterMap
        (itemEvent cid cn (buildMap existing)) := by
  show ((scraped.filterMap (itemEvent cid cn (buildMap existing)) ++
      (buildMap existing).filterMap
        (removedEvent cid cn (scraped.map (fun i => i.stock_number)))).filter
      (fun e => e.stock_number = k)) = _
  rw [List.filter_append]
  have h2 : ((buildMap existing).filterMap
      (removedEvent cid cn (scraped.map (fun i => i.stock_number)))).filter
      (fun e => e.stock_number = k) = [] := by
    rw [List.filter_eq_nil_iff]
    intro e he
    rcases List.mem_filterMap.mp he with ⟨p, _, hpe⟩
    obtain ⟨hes, _, hnot⟩ := removedEvent_spec _ _ _ _ _ hpe
    simp only [decide_eq_true_eq]
    intro hek
    exact hnot (hes ▸ hek ▸ hks)
  rw [h2, List.append_nil,
    filter_filterMap_key (itemEvent cid cn (buildMap existing))
      (fun x => x.stock_number) (fun e => e.stock_number) scraped k
      (fun x e h => (itemEvent_spec cid cn _ x e h).1)]

/-- For a key absent from the scraped batch, the changes carrying that key
all come from the removed-items loop. -/
theorem changes_filter_key_of_not_mem_scraped (cid cn : String)
    (existing : List ExistingRow) (scraped : List CleanInventoryItem)
    (k : String) (hks : k ∉ scraped.map (fun i => i.stock_number)) :
    (detectChanges cid cn existing scraped).changes.filter
      (fun e => e.stock_number = k) =
      ((buildMap existing).filter (fun p => p.1 = k)).filterMap
        (removedEvent cid cn (scraped.map (fun i => i.stock_number))) := by
  show ((scraped.filterMap (itemEvent cid cn (buildMap existing)) ++
      (buildMap existing).filterMap
        (removedEvent cid cn (scraped.map (fun i => i.stock_number)))).filter
      (fun e => e.stock_number = k)) = _
  rw [List.filter_append]
  have h1 : (scraped.filterMap (itemEvent cid cn (buildMap existing))).filter
      (fun e => e.stock_number = k) = [] := by
    rw [filter_filterMap_key (itemEvent cid cn (buildMap existing))
        (fun x => x.stock_number) (fun e => e.stock_number) scraped k
        (fun x e h => (itemEvent_spec cid cn _ x e h).1),
      filter_key_eq_nil (fun x => x.stock_number) scraped k hks]
    simp
  rw [h1, List.nil_append,
    filter_filterMap_key (removedEvent cid cn (scraped.map (fun i => i.stock_number)))
      (fun p => p.1) (fun e => e.stock_number) (buildMap existing) k
      (fun p e h => (removedEvent_spec _ _ _ _ _ h).1)]

end ChangeFilterLemmas

/-- C1: for a stored row and a fresh item sharing a stock number, with both
prices non-null `detectChanges` emits exactly one `PRICE_DROP`
(`old_price` = stored, `new_price` = fresh) when the fresh price is
strictly lower, exactly one `PRICE_INCREASE` when strictly higher, and no
event for that key when the prices are equal; when either price is null it
emits no event for that key at all. -/
theorem detectChanges_price_events (cid cn : String)
    (existing : List ExistingRow) (scraped : List CleanInventoryItem)
    (hNs : (existing.map (fun r => r.stock_number)).Nodup)
    (hNf : (scraped.map (fun i => i.stock_number)).Nodup)
    (r : ExistingRow) (i : CleanInventoryItem)
    (hr : r ∈ existing) (hi : i ∈ scraped)
    (hk : i.stock_number = r.stock_number) :
    (∀ oldP newP, r.price = some oldP → i.price = some newP →
      ((detectChanges cid cn existing scraped).changes.filter
        (fun e => e.stock_number = r.stock_number)) =
        (if newP < oldP then
          [{ company_id := cid, competitor_name := cn, trailer_title := i.title,
             stock_number := i.stock_number, change_type := .PRICE_DROP,
             old_price := some oldP, new_price := some newP }]
        else if oldP < newP then
          [{ company_id := cid, competitor_name := cn, trailer_title := i.title,
             stock_number := i.stock_number, change_type := .PRICE_INCREASE,
             old_price := some oldP, new_price := some newP }]
        else [])) ∧
    ((r.price = none ∨ i.price = none) →
      ((detectChanges cid cn existing scraped).changes.filter
        (fun e => e.stock_number = r.stock_number)) = []) := by
  have hmem : r.stock_number ∈ scraped.map (fun i => i.stock_number) :=
    hk ▸ List.mem_map_of_mem _ hi
  have hsingle : scraped.filter (fun x => x.stock_number = r.stock_number) = [i] :=
    filter_key_single (fun x => x.stock_number) scraped i r.stock_number hNf hi hk
  have hlook' : lookupM (buildMap existing) i.stock_number = some r := by
    rw [hk]
    exact lookupM_buildMap_of_mem existing r hNs hr
  constructor
  · intro oldP newP hro hio
    rw [changes_filter_key_of_mem_scraped cid cn existing scraped r.stock_number hmem,
      hsingle]
    by_cases h1 : newP < oldP
    · simp [itemEvent, hlook', hro, hio, h1]
    · by_cases h2 : oldP < newP
      · simp [itemEvent, hlook', hro, hio, h1, h2]
      · simp [itemEvent, hlook', hro, hio, h1, h2]
  · intro h0
    rw [changes_filter_key_of_mem_scraped cid cn existing scraped r.stock_number hmem,
      hsingle]
    rcases h0 with h0 | h0
    · cases hq : i.price <;> simp [itemEvent, hlook', h0, hq]
    · cases hp : r.price <;> simp [itemEvent, hlook', h0, hp]

/-- Witness for C1 at a concrete input: stored `A1` at 1000, fresh `A1` at
900 produce exactly one `PRICE_DROP` with old 1000 and new 900. -/
theorem detectChanges_price_events_witness :
    ((detectChanges "c1" "dealer" [sampleRow "A1" (some 1000)]
        [sampleItem "A1" (some 900)]).changes.filter
      (fun e => e.stock_number = "A1")) =
      [{ company_id := "c1", competitor_name := "dealer",
         trailer_title := some "t", stock_number := "A1",
         change_type := .PRICE_DROP, old_price := some 1000,
         new_price := some 900 }] := by
  have h := (detectChanges_price_events "c1" "dealer"
    [sampleRow "A1" (some 1000)] [sampleItem "A1" (some 900)]
    (by simp) (by simp)
    (sampleRow "A1" (some 1000)) (sampleItem "A1" (some 900))
    (by simp) (by simp) rfl).1 1000 900 rfl rfl
  rw [show (sampleRow "A1" (some 1000)).stock_number = "A1" from rfl] at h
  rw [h, if_pos (by norm_num)]
  rfl

/-- C2: a fresh item whose stock number is absent from the stored rows
yields exactly one `NEW_LISTING` (old price null, new price = fresh); a
stored row whose stock number is absent from the fresh batch yields
exactly one `REMOVED` (old price = stored, new price null); and no key
receives both a `NEW_LISTING` and a `REMOVED` in the same run. -/
theorem detectChanges_new_removed (cid cn : String)
    (existing : List ExistingRow) (scraped : List CleanInventoryItem)
    (hNs : (existing.map (fun r => r.stock_number)).Nodup)
    (hNf : (scraped.map (fun i => i.stock_number)).Nodup) :
    (∀ i ∈ scraped, i.stock_number ∉ existing.map (fun r => r.stock_number) →
      ((detectChanges cid cn existing scraped).changes.filter
        (fun e => e.stock_number = i.stock_number)) =
        [{ company_id := cid, competitor_name := cn, trailer_title := i.title,
           stock_number := i.stock_number, change_type := .NEW_LISTING,
           old_price := none, new_price := i.price }]) ∧
    (∀ r ∈ existing, r.stock_number ∉ scraped.map (fun i => i.stock_number) →
      ((detectChanges cid cn existing scraped).changes.filter
        (fun e => e.stock_number = r.stock_number)) =
        [{ company_id := cid, competitor_name := cn, trailer_title := r.title,
           stock_number := r.stock_number, change_type := .REMOVED,
           old_price := r.price, new_price := none }]) ∧
    (∀ k, ¬((∃ e ∈ (detectChanges cid cn existing scraped).changes,
          e.change_type = .NEW_LISTING ∧ e.stock_number = k) ∧
        (∃ e ∈ (detectChanges cid cn existing scraped).changes,
          e.change_type = .REMOVED ∧ e.stock_number = k))) := by
  refine ⟨?_, ?_, ?_⟩
  · intro i hi habs
    rw [changes_filter_key_of_mem_scraped cid cn existing scraped i.stock_number
        (List.mem_map_of_mem _ hi),
      filter_key_single (fun x => x.stock_number) scraped i i.stock_number hNf hi rfl]
    have hlook : lookupM (buildMap existing) i.stock_number = none :=
      lookupM_buildMap_of_not_mem existing _ habs
    simp [itemEvent, hlook]
  · intro r hr habs
    rw [changes_filter_key_of_not_mem_scraped cid cn existing scraped
        r.stock_number habs]
    have hmap : (buildMap existing).filter (fun p => p.1 = r.stock_number) =
        [(r.stock_number, r)] := by
      rw [buildMap_eq_map_pair existing hNs]
      refine filter_key_single (fun p => p.1)
        (existing.map (fun r => (r.stock_number, r))) (r.stock_number, r)
        r.stock_number ?_ (List.mem_map_of_mem _ hr) rfl
      rw [List.map_map]
      exact hNs
    rw [hmap]
    simp [removedEvent, habs]
  · rintro k ⟨⟨e1, he1, ht1, hk1⟩, ⟨e2, he2, ht2, hk2⟩⟩
    have hsplit : (detectChanges cid cn existing scraped).changes =
        scraped.filterMap (itemEvent cid cn (buildMap existing)) ++
        (buildMap existing).filterMap
          (removedEvent cid cn (scraped.map (fun i => i.stock_number))) := rfl
    rw [hsplit] at he1 he2
    have hk_in : k ∈ scraped.map (fun i => i.stock_number) := by
      rcases List.mem_append.mp he1 with h | h
      · rcases List.mem_filterMap.mp h with ⟨x, hx, hxe⟩
        obtain ⟨hs, _⟩ := itemEvent_spec cid cn _ x e1 hxe
        exact hk1 ▸ hs ▸ List.mem_map_of_mem _ hx
      · rcases List.mem_filterMap.mp h with ⟨p, _, hpe⟩
        obtain ⟨_, hrty, _⟩ := removedEvent_spec _ _ _ _ _ hpe
        exact absurd (ht1 ▸ hrty) (by simp)
    have hk_out : k ∉ scraped.map (fun i => i.stock_number) := by
      rcases List.mem_append.mp he2 with h | h
      · rcases List.mem_filterMap.mp h with ⟨x, _, hxe⟩
        obtain ⟨_, hne⟩ := itemEvent_spec cid cn _ x e2 hxe
        exact absurd ht2 hne
      · rcases List.mem_filterMap.mp h with ⟨p, _, hpe⟩
        obtain ⟨hs, _, hnot⟩ := removedEvent_spec _ _ _ _ _ hpe
        exact hk2 ▸ hs ▸ hnot
    exact hk_out hk_in

/-- Witness for C2 at a concrete input: stored `{A2, price 7}` and fresh
batch `{B1, price 500}` produce exactly one `NEW_LISTING` for `B1` and
exactly one `REMOVED` for `A2`. -/
theorem detectChanges_new_removed_witness :
    ((detectChanges "c1" "dealer" [sampleRow "A2" (some 7)]
        [sampleItem "B1" (some 500)]).changes.filter
      (fun e => e.stock_number = "B1")) =
      [{ company_id := "c1", competitor_name := "dealer",
         trailer_title := some "t", stock_number := "B1",
         change_type := .NEW_LISTING, old_price := none,
         new_price := some 500 }] ∧
    ((detectChanges "c1" "dealer" [sampleRow "A2" (some 7)]
        [sampleItem "B1" (some 500)]).changes.filter
      (fun e => e.stock_number = "A2")) =
      [{ company_id := "c1", competitor_name := "dealer",
         trailer_title := some "t", stock_number := "A2",
         change_type := .REMOVED, old_price := some 7,
         new_price := none }] := by
  constructor
  · exact (detectChanges_new_removed "c1" "dealer" [sampleRow "A2" (some 7)]
      [sampleItem "B1" (some 500)] (by simp) (by simp)).1
      (sampleItem "B1" (some 500)) (by simp) (by decide)
  · exact (detectChanges_new_removed "c1" "dealer" [sampleRow "A2" (some 7)]
      [sampleItem "B1" (some 500)] (by simp) (by simp)).2.1
      (sampleRow "A2" (some 7)) (by simp) (by decide)

/-- Each change record carries one of exactly four change types, so the
four per-type filters partition any change list. -/
theorem length_eq_sum_type_filters (l : List InventoryChange) :
    (l.filter (fun c => c.change_type = ChangeType.NEW_LISTING)).length +
    (l.filter (fun c => c.change_type = ChangeType.PRICE_DROP)).length +
    (l.filter (fun c => c.change_type = ChangeType.PRICE_INCREASE)).length +
    (l.filter (fun c => c.change_type = ChangeType.REMOVED)).length =
    l.length := by
  induction l with
  | nil => rfl
  | cons e t ih =>
    cases he : e.change_type <;> simp [List.filter_cons, he] <;> omega

/-- C8: each counter returned by `detectChanges` equals the number of
events of that change type in the returned list, and the four counters sum
to the total number of changes. -/
theorem detectChanges_counts (cid cn : String) (existing : List ExistingRow)
    (scraped : List CleanInventoryItem) :
    ((detectChanges cid cn existing scraped).newCount =
      ((detectChanges cid cn existing scraped).changes.filter
        (fun c => c.change_type = ChangeType.NEW_LISTING)).length) ∧
    ((detectChanges cid cn existing scraped).priceDropCount =
      ((detectChanges cid cn existing scraped).changes.filter
        (fun c => c.change_type = ChangeType.PRICE_DROP)).length) ∧
    ((detectChanges cid cn existing scraped).priceIncreaseCount =
      ((detectChanges cid cn existing scraped).changes.filter
        (fun c => c.change_type = ChangeType.PRICE_INCREASE)).length) ∧
    ((detectChanges cid cn existing scraped).removedCount =
      ((detectChanges cid cn existing scraped).changes.filter
        (fun c => c.change_type = ChangeType.REMOVED)).length) ∧
    ((detectChanges cid cn existing scraped).newCount +
      (detectChanges cid cn existing scraped).priceDropCount +
      (detectChanges cid cn existing scraped).priceIncreaseCount +
      (detectChanges cid cn existing scraped).removedCount =
      (detectChanges cid cn existing scraped).changes.length) :=
  ⟨rfl, rfl, rfl, rfl,
    length_eq_sum_type_filters (detectChanges cid cn existing scraped).changes⟩

/-- C4: `parsePrice` on the spec's examples, and positivity — a parsed
price is never zero or negative. -/
theorem parsePrice_spec :
    parsePrice (some (Sum.inl "$12,345")) = some 12345 ∧
    parsePrice (some (Sum.inl "$0")) = none ∧
    parsePrice (some (Sum.inl "-5")) = none ∧
    ∀ raw q, parsePrice raw = some q → 0 < q := by
  refine ⟨by decide, by decide, by decide, ?_⟩
  intro raw q h
  unfold parsePrice at h
  split at h
  · cases h
  · rename_i n
    split at h
    · rename_i hn
      cases h
      exact hn
    · cases h
  · rename_i s
    split at h
    · cases h
    · rename_i num hnum
      split at h
      · cases h
      · rename_i hle
        cases h
        exact lt_of_not_le hle

/-- Witness for C4: the positivity clause applied at the concrete parse of
`"5"`. -/
theorem parsePrice_spec_witness :
    parsePrice (some (Sum.inl "5")) = some 5 ∧ 0 < (5 : ℚ) :=
  ⟨by decide, parsePrice_spec.2.2.2 (some (Sum.inl "5")) 5 (by decide)⟩

/-- C10: every item produced by `cleanItems` has status exactly
`Available`, regardless of the raw record. -/
theorem cleanItems_status_available (cid cn now : String)
    (raw : List RawInventoryItem) (c : CleanInventoryItem)
    (hc : c ∈ cleanItems cid cn now raw) : c.status = "Available" := by
  unfold cleanItems at hc
  rcases List.mem_map.mp hc with ⟨r, _, hr⟩
  exact hr ▸ rfl

/-- Witness for C10 at a concrete input. -/
theorem cleanItems_status_available_witness :
    sampleCleaned ∈ cleanItems "c1" "dealer" "t0" [sampleRaw "A1"] ∧
    sampleCleaned.status = "Available" :=
  ⟨by decide,
   cleanItems_status_available "c1" "dealer" "t0" [sampleRaw "A1"]
     sampleCleaned (by decide)⟩

/-- Counterexample to C6: `cleanItems` performs no deduplication — two raw
records with stock number `A` both survive — and a whitespace-only stock
number passes the truthiness filter and survives with an empty trimmed
key. -/
theorem cleanItems_nodedupe_counterexample :
    ((cleanItems "c1" "dealer" "t0"
        [sampleRaw "A", sampleRaw "A", sampleRaw " "]).map
      (fun c => c.stock_number)) = ["A", "A", ""] ∧
    ¬ ((cleanItems "c1" "dealer" "t0"
        [sampleRaw "A", sampleRaw "A", sampleRaw " "]).map
      (fun c => c.stock_number)).Nodup := by
  constructor
  · rfl
  · intro h
    rw [show ((cleanItems "c1" "dealer" "t0"
        [sampleRaw "A", sampleRaw "A", sampleRaw " "]).map
      (fun c => c.stock_number)) = ["A", "A", ""] from rfl] at h
    simp at h

/-- C6 (amended): `cleanItems` drops exactly the raw records whose
`stock_number` is the empty string and keeps every other record —
including in-batch duplicates, which are only collapsed later by
`upsertInventory`; each kept record's key is the trimmed raw stock
number. -/
theorem cleanItems_keep_discipline (cid cn now : String)
    (raw : List RawInventoryItem) :
    (cleanItems cid cn now raw).length =
      (raw.filter (fun r => r.stock_number ≠ "")).length ∧
    ∀ c ∈ cleanItems cid cn now raw, ∃ r ∈ raw,
      r.stock_number ≠ "" ∧ c.stock_number = jsTrim r.stock_number := by
  constructor
  · unfold cleanItems
    rw [List.length_map]
  · intro c hc
    unfold cleanItems at hc
    rcases List.mem_map.mp hc with ⟨r, hr, hcr⟩
    have hmem := List.mem_filter.mp hr
    exact ⟨r, hmem.1, by simpa using hmem.2, hcr ▸ rfl⟩

/-- Witness for the amended C6 at a concrete input. -/
theorem cleanItems_keep_discipline_witness :
    (cleanItems "c1" "dealer" "t0" [sampleRaw "A1"]).length = 1 ∧
    (∃ r ∈ [sampleRaw "A1"],
      r.stock_number ≠ "" ∧ sampleCleaned.stock_number = jsTrim r.stock_number) := by
  have h := cleanItems_keep_discipline "c1" "dealer" "t0" [sampleRaw "A1"]
  exact ⟨h.1.trans (by decide), h.2 sampleCleaned (by decide)⟩

/-- Counterexample to C5: with `maxRetries = 0` against a server that
always answers HTTP 500, `fetchWithRetry` returns the non-2xx response
from the final attempt instead of raising an error. -/
theorem fetchWithRetry_returns_final_non2xx :
    (fetchWithRetry alwaysHttp500 0).result =
      Except.ok { ok := false, status := 500 } ∧
    (fetchWithRetry alwaysHttp500 0).attempts = 1 :=
  ⟨rfl, rfl⟩

/-- The exhaustion behaviour of the retry loop, generalized over the
current attempt index. -/
theorem fetchGo_exhaust (f : ℕ → AttemptOutcome) :
    ∀ (r attempt : ℕ), (∀ d, d ≤ r → attemptFailed (f (attempt + d))) →
    (fetchGo f attempt r).attempts = r + 1 ∧
    (fetchGo f attempt r).delays =
      (List.range r).map (fun d => 1000 * 2 ^ (attempt + d)) ∧
    ((fetchGo f attempt r).result =
      match f (attempt + r) with
      | .throwErr msg => .error msg
      | .response ok s => .ok { ok := ok, status := s }) := by
  intro r
  induction r with
  | zero =>
    intro attempt _
    cases hf : f attempt <;>
      simp [fetchGo, hf, Nat.add_zero]
  | succ r ih =>
    intro attempt h
    have h0 : attemptFailed (f attempt) := by
      simpa using h 0 (Nat.zero_le _)
    have hsh : ∀ d, d ≤ r → attemptFailed (f (attempt + 1 + d)) := by
      intro d hd
      have := h (d + 1) (by omega)
      rwa [show attempt + (d + 1) = attempt + 1 + d by omega] at this
    obtain ⟨ha, hd, hr⟩ := ih (attempt + 1) hsh
    have hshift : attempt + 1 + r = attempt + (r + 1) := by omega
    have hdelays : (List.range (r + 1)).map (fun d => 1000 * 2 ^ (attempt + d)) =
        1000 * 2 ^ attempt ::
        (List.range r).map (fun d => 1000 * 2 ^ (attempt + 1 + d)) := by
      rw [List.range_succ_eq_map, List.map_cons, List.map_map, Nat.add_zero]
      refine congrArg (List.cons (1000 * 2 ^ attempt)) ?_
      refine List.map_congr_left ?_
      intro d _
      show 1000 * 2 ^ (attempt + (d + 1)) = 1000 * 2 ^ (attempt + 1 + d)
      rw [show attempt + (d + 1) = attempt + 1 + d by omega]
    cases hf : f attempt with
    | response ok s =>
      cases ok with
      | true =>
        rw [hf] at h0
        simp [attemptFailed] at h0
      | false =>
        refine ⟨?_, ?_, ?_⟩
        · simp [fetchGo, hf, ha]
        · rw [hdelays]
          simp [fetchGo, hf, hd]
        · rw [← hshift]
          simp [fetchGo, hf, hr]
    | throwErr msg =>
      refine ⟨?_, ?_, ?_⟩
      · simp [fetchGo, hf, ha]
      · rw [hdelays]
        simp [fetchGo, hf, hd]
      · rw [← hshift]
        simp [fetchGo, hf, hr]

/-- C5 (amended): when every attempt fails (transport failure or non-2xx),
`fetchWithRetry` makes exactly `maxRetries + 1` attempts and sleeps
`1000 * 2 ^ attempt` ms between attempts; after the final attempt it
raises the last failure only when that attempt was a transport failure —
a final non-2xx response is returned to the caller instead. -/
theorem fetchWithRetry_exhaustion (f : ℕ → AttemptOutcome) (maxRetries : ℕ)
    (h : ∀ a, a ≤ maxRetries → attemptFailed (f a)) :
    (fetchWithRetry f maxRetries).attempts = maxRetries + 1 ∧
    (fetchWithRetry f maxRetries).delays =
      (List.range maxRetries).map (fun a => 1000 * 2 ^ a) ∧
    (∀ msg, f maxRetries = .throwErr msg →
      (fetchWithRetry f maxRetries).result = .error msg) ∧
    (∀ s, f maxRetries = .response false s →
      (fetchWithRetry f maxRetries).result =
        .ok { ok := false, status := s }) := by
  obtain ⟨ha, hd, hr⟩ := fetchGo_exhaust f maxRetries 0
    (fun d hd => by simpa using h d hd)
  refine ⟨ha, ?_, ?_, ?_⟩
  · show (fetchGo f 0 maxRetries).delays = _
    rw [hd]
    refine List.map_congr_left ?_
    intro a _
    show 1000 * 2 ^ (0 + a) = 1000 * 2 ^ a
    rw [Nat.zero_add]
  · intro msg hmsg
    show (fetchGo f 0 maxRetries).result = _
    rw [hr, Nat.zero_add, hmsg]
  · intro s hs
    show (fetchGo f 0 maxRetries).result = _
    rw [hr, Nat.zero_add, hs]

/-- Witness for the amended C5: two transport failures with
`maxRetries = 1` give two attempts, one 1000 ms backoff, and the last
error raised. -/
theorem fetchWithRetry_exhaustion_witness :
    (fetchWithRetry alwaysReject 1).attempts = 2 ∧
    (fetchWithRetry alwaysReject 1).delays = [1000] ∧
    (fetchWithRetry alwaysReject 1).result = Except.error "socket hang up" := by
  have h := fetchWithRetry_exhaustion alwaysReject 1
    (fun a _ => by simp [alwaysReject, attemptFailed])
  exact ⟨h.1, by rw [h.2.1]; rfl, h.2.2.1 "socket hang up" rfl⟩

theorem nodup_keys_listSet {β : Type} (m : List (String × β)) (k : String)
    (v : β) (h : (m.map Prod.fst).Nodup) :
    ((listSet m k v).map Prod.fst).Nodup := by
  induction m with
  | nil => simp [listSet]
  | cons p rest ih =>
    simp only [List.map_cons, List.nodup_cons] at h
    by_cases hp : p.1 = k
    · simp only [listSet, if_pos hp, List.map_cons, List.nodup_cons]
      exact ⟨hp ▸ h.1, h.2⟩
    · simp only [listSet, if_neg hp, List.map_cons, List.nodup_cons]
      refine ⟨?_, ih h.2⟩
      intro hmem
      rcases List.mem_map.mp hmem with ⟨q, hq, hq1⟩
      rcases mem_listSet rest k v q hq with h' | h'
      · exact hp (by rw [← hq1, h'])
      · exact h.1 (hq1 ▸ List.mem_map_of_mem Prod.fst h')

theorem nodup_keys_foldl_listSet {β : Type} (key : β → String) (l : List β) :
    ∀ m0 : List (String × β), (m0.map Prod.fst).Nodup →
    ((l.foldl (fun m x => listSet m (key x) x) m0).map Prod.fst).Nodup := by
  induction l with
  | nil => exact fun m0 h => h
  | cons x xs ih =>
    intro m0 h
    exact ih _ (nodup_keys_listSet m0 (key x) x h)

theorem find?_map_snd_keyinv {β : Type} (key : β → String)
    (m : List (String × β)) (k : String)
    (hinv : ∀ p ∈ m, p.1 = key p.2) :
    (m.map Prod.snd).find? (fun v => key v = k) = lookupM m k := by
  induction m with
  | nil => rfl
  | cons p rest ih =>
    have hp := hinv p (List.mem_cons_self p rest)
    by_cases hk : key p.2 = k
    · rw [List.map_cons, List.find?_cons_of_pos _ (by simpa using hk)]
      unfold lookupM
      rw [List.find?_cons_of_pos _ (by simpa using hp.trans hk)]
      rfl
    · rw [List.map_cons, List.find?_cons_of_neg _ (by simpa using hk),
        ih (fun q hq => hinv q (List.mem_cons_of_mem p hq))]
      unfold lookupM
      rw [List.find?_cons_of_neg _ (by simpa using fun h => hk (hp ▸ h))]

theorem lookupM_foldl_nil {β : Type} (key : β → String) (l : List β)
    (k : String) :
    lookupM (l.foldl (fun m x => listSet m (key x) x) []) k =
      l.reverse.find? (fun x => key x = k) := by
  unfold lookupM
  rw [find?_foldl_listSet key l [] k]
  cases l.reverse.find? (fun x => key x = k) <;> simp

theorem join_chunksOf {α : Type} (n : ℕ) (l : List α) :
    (chunksOf n l).flatten = l := by
  induction l using chunksOf.induct n with
  | case1 => simp [chunksOf]
  | case2 x xs ih =>
    rw [chunksOf]
    simp only [List.flatten]
    rw [ih, List.cons_append, List.take_append_drop]

/-- C9: `upsertInventory` deduplicates its input by stock number before
chunking — the deduplicated list has pairwise-distinct stock numbers, the
row kept for each key is the last occurrence in the input, and chunking
into batches of 500 writes exactly the deduplicated rows. -/
theorem upsertInventory_dedupe (items : List CleanInventoryItem) :
    ((dedupeByStock items).map (fun i => i.stock_number)).Nodup ∧
    (∀ k, (dedupeByStock items).find? (fun i => i.stock_number = k) =
      items.reverse.find? (fun i => i.stock_number = k)) ∧
    (chunksOf BATCH_SIZE (dedupeByStock items)).flatten = dedupeByStock items := by
  have hinv : ∀ p ∈ items.foldl (fun m i => listSet m i.stock_number i) [],
      p.1 = p.2.stock_number := by
    intro p hp
    rcases mem_foldl_listSet (fun i => i.stock_number) items [] p hp with h | h
    · cases h
    · exact h.1
  refine ⟨?_, ?_, join_chunksOf _ _⟩
  · unfold dedupeByStock
    rw [List.map_map]
    have hcong : (items.foldl (fun m i => listSet m i.stock_number i) []).map
        ((fun i => i.stock_number) ∘ Prod.snd) =
        (items.foldl (fun m i => listSet m i.stock_number i) []).map Prod.fst :=
      List.map_congr_left (fun p hp => (hinv p hp).symm)
    rw [hcong]
    exact nodup_keys_foldl_listSet (fun i => i.stock_number) items [] (by simp)
  · intro k
    unfold dedupeByStock
    exact (find?_map_snd_keyinv (fun i => i.stock_number)
        (items.foldl (fun m i => listSet m i.stock_number i) []) k hinv).trans
      (lookupM_foldl_nil (fun i => i.stock_number) items k)

/-- C7: any raising stage of `BaseScraper.run` — scrape, inventory fetch,
change insert, upsert batch, or mark-removed update — sends the job to
`failed` with the captured message and yields the zeroed result carrying
that message; a failed scrape determines the outcome regardless of every
later stage (no further stage executes); and a `success` outcome implies
the scrape and the inventory fetch succeeded and none of the guarded DB
writes (change insert, upsert batches, mark-removed update) raised, with
the item/change counts taken from the cleaned batch and detected
changes. -/
theorem runPipeline_stage_failures (env : RunEnv) (cid name now : String) :
    (∀ e, env.scrape = .error e →
      runPipeline env cid name now = (.failed e, errResult name e)) ∧
    (∀ e, env.scrape = .error e → ∀ env' : RunEnv, env'.scrape = .error e →
      runPipeline env' cid name now = runPipeline env cid name now) ∧
    (∀ raw e, env.scrape = .ok raw → env.fetchExisting = .error e →
      runPipeline env cid name now =
        (.failed ("Failed to fetch existing inventory: " ++ e),
         errResult name ("Failed to fetch existing inventory: " ++ e))) ∧
    (∀ raw existing e, env.scrape = .ok raw → env.fetchExisting = .ok existing →
      ¬(detectChanges cid name existing
          (cleanItems cid name now raw)).changes.isEmpty →
      env.insertChanges = .error e →
      runPipeline env cid name now =
        (.failed ("Failed to write changes: " ++ e),
         errResult name ("Failed to write changes: " ++ e))) ∧
    (∀ raw existing e, env.scrape = .ok raw → env.fetchExisting = .ok existing →
      ((detectChanges cid name existing
          (cleanItems cid name now raw)).changes.isEmpty ∨
        env.insertChanges = .ok ()) →
      ¬(dedupeByStock (cleanItems cid name now raw)).isEmpty →
      env.upsertBatches = .error e →
      runPipeline env cid name now =
        (.failed ("Upsert batch failed: " ++ e),
         errResult name ("Upsert batch failed: " ++ e))) ∧
    (∀ raw existing e, env.scrape = .ok raw → env.fetchExisting = .ok existing →
      ((detectChanges cid name existing
          (cleanItems cid name now raw)).changes.isEmpty ∨
        env.insertChanges = .ok ()) →
      ((dedupeByStock (cleanItems cid name now raw)).isEmpty ∨
        env.upsertBatches = .ok ()) →
      ¬((((detectChanges cid name existing
          (cleanItems cid name now raw)).changes.filter
            (fun c => c.change_type = ChangeType.REMOVED)).map
              (fun c => c.stock_number)).filter (fun s => s ≠ "")).isEmpty →
      env.markSoldUpdate = .error e →
      runPipeline env cid name now =
        (.failed ("Failed to mark removed items: " ++ e),
         errResult name ("Failed to mark removed items: " ++ e))) ∧
    (∀ n m res, runPipeline env cid name now = (.success n m, res) →
      (∃ raw, env.scrape = .ok raw) ∧ (∃ ex, env.fetchExisting = .ok ex)) ∧
    (∀ raw existing n m res, env.scrape = .ok raw →
      env.fetchExisting = .ok existing →
      runPipeline env cid name now = (.success n m, res) →
      n = (cleanItems cid name now raw).length ∧
      m = (detectChanges cid name existing
        (cleanItems cid name now raw)).changes.length ∧
      res.error = none ∧
      (¬(detectChanges cid name existing
          (cleanItems cid name now raw)).changes.isEmpty →
        env.insertChanges = .ok ()) ∧
      (¬(dedupeByStock (cleanItems cid name now raw)).isEmpty →
        env.upsertBatches = .ok ()) ∧
      (¬((((detectChanges cid name existing
          (cleanItems cid name now raw)).changes.filter
            (fun c => c.change_type = ChangeType.REMOVED)).map
              (fun c => c.stock_number)).filter (fun s => s ≠ "")).isEmpty →
        env.markSoldUpdate = .ok ())) := by
  obtain ⟨scr, fe, ic, ub, msu⟩ := env
  refine ⟨?_, ?_, ?_, ?_, ?_, ?_, ?_, ?_⟩
  · intro e he
    cases he
    rfl
  · intro e he env' he'
    obtain ⟨scr', fe', ic', ub', msu'⟩ := env'
    cases he
    cases he'
    rfl
  · intro raw e he hf
    cases he
    cases hf
    rfl
  · intro raw existing e he hf hne hins
    cases he
    cases hf
    cases hins
    simp only [runPipeline]
    rw [if_neg hne]
  · intro raw existing e he hf hwr hde hub
    cases he
    cases hf
    have hub' : ub = Except.error e := hub
    cases hub'
    rcases hwr with hemp | hic
    · simp only [runPipeline]
      rw [if_pos hemp, if_neg hde]
    · have hic' : ic = Except.ok () := hic
      cases hic'
      simp only [runPipeline]
      by_cases hemp : (detectChanges cid name existing
          (cleanItems cid name now raw)).changes.isEmpty
      · rw [if_pos hemp, if_neg hde]
      · rw [if_neg hemp, if_neg hde]
  · intro raw existing e he hf hwr hup hrne hmsu
    cases he
    cases hf
    have hmsu' : msu = Except.error e := hmsu
    cases hmsu'
    rcases hwr with hemp | hic
    · rcases hup with hde | hub
      · simp only [runPipeline]
        rw [if_pos hemp, if_pos hde, if_neg hrne]
      · have hub' : ub = Except.ok () := hub
        cases hub'
        simp only [runPipeline]
        by_cases hde : (dedupeByStock (cleanItems cid name now raw)).isEmpty
        · rw [if_pos hemp, if_pos hde, if_neg hrne]
        · rw [if_pos hemp, if_neg hde, if_neg hrne]
    · have hic' : ic = Except.ok () := hic
      cases hic'
      rcases hup with hde | hub
      · simp only [runPipeline]
        by_cases hemp : (detectChanges cid name existing
            (cleanItems cid name now raw)).changes.isEmpty
        · rw [if_pos hemp, if_pos hde, if_neg hrne]
        · rw [if_neg hemp, if_pos hde, if_neg hrne]
      · have hub' : ub = Except.ok () := hub
        cases hub'
        simp only [runPipeline]
        by_cases hemp : (detectChanges cid name existing
            (cleanItems cid name now raw)).changes.isEmpty <;>
          by_cases hde : (dedupeByStock (cleanItems cid name now raw)).isEmpty
        · rw [if_pos hemp, if_pos hde, if_neg hrne]
        · rw [if_pos hemp, if_neg hde, if_neg hrne]
        · rw [if_neg hemp, if_pos hde, if_neg hrne]
        · rw [if_neg hemp, if_neg hde, if_neg hrne]
  · intro n m res h
    cases scr with
    | error e => simp [runPipeline] at h
    | ok raw =>
      cases fe with
      | error e => simp [runPipeline] at h
      | ok existing => exact ⟨⟨raw, rfl⟩, ⟨existing, rfl⟩⟩
  · intro raw existing n m res he hf h
    cases he
    cases hf
    simp only [runPipeline] at h
    split at h
    · simp at h
    · rename_i u heqw
      split at h
      · simp at h
      · rename_i u2 hequ
        split at h
        · simp at h
        · rename_i u3 heqm
          simp only [Prod.mk.injEq, JobStatus.success.injEq] at h
          refine ⟨h.1.1.symm, h.1.2.symm, ?_, ?_, ?_, ?_⟩
          · rw [← h.2]
          · intro hne
            rw [if_neg hne] at heqw
            cases ic with
            | error msg => simp at heqw
            | ok a => rfl
          · intro hne
            rw [if_neg hne] at hequ
            cases ub with
            | error msg => simp at hequ
            | ok a => rfl
          · intro hrne
            rw [if_neg hrne] at heqm
            cases msu with
            | error msg => simp at heqm
            | ok a => rfl

/-- Witness for C7: a failed scrape stage at a concrete environment. -/
theorem runPipeline_stage_failures_witness :
    runPipeline ⟨.error "timeout", .ok [], .ok (), .ok (), .ok ()⟩
        "c1" "dealer" "t0" =
      (.failed "timeout", errResult "dealer" "timeout") :=
  (runPipeline_stage_failures ⟨.error "timeout", .ok [], .ok (), .ok (), .ok ()⟩
    "c1" "dealer" "t0").1 "timeout" rfl

section UpsertLemmas

theorem eq_of_key_nodup {β : Type} (key : β → String) (l : List β)
    (hN : (l.map key).Nodup) (x y : β) (hx : x ∈ l) (hy : y ∈ l)
    (hk : key x = key y) : x = y := by
  have h1 := find?_of_key_nodup key l x (key y) hN hx hk
  have h2 := find?_of_key_nodup key l y (key y) hN hy rfl
  rw [h1] at h2
  exact Option.some.inj h2

theorem find?_replaceRow (rows : List CleanInventoryItem)
    (i : CleanInventoryItem) (k : String) :
    ((rows.map (fun r => if r.stock_number = i.stock_number then i else r)).find?
        (fun r => r.stock_number = k)) =
      if k = i.stock_number
      then (if rows.any (fun r => r.stock_number = i.stock_number)
            then some i else none)
      else rows.find? (fun r => r.stock_number = k) := by
  induction rows with
  | nil => by_cases h : k = i.stock_number <;> simp [h]
  | cons r rs ih =>
    rw [List.map_cons]
    by_cases hr : r.stock_number = i.stock_number
    · rw [if_pos hr]
      by_cases hk : k = i.stock_number
      · rw [List.find?_cons_of_pos _ (by simpa using hk.symm), if_pos hk,
          if_pos (by simp [List.any_cons, hr])]
      · rw [List.find?_cons_of_neg _ (by simpa using fun h => hk h.symm), ih,
          if_neg hk,
          List.find?_cons_of_neg _ (by simpa using fun h => hk (hr ▸ h).symm),
          if_neg hk]
    · rw [if_neg hr]
      by_cases hrk : r.stock_number = k
      · have hk : ¬ k = i.stock_number := fun h => hr (hrk.trans h)
        rw [List.find?_cons_of_pos _ (by simpa using hrk), if_neg hk,
          List.find?_cons_of_pos _ (by simpa using hrk)]
      · rw [List.find?_cons_of_neg _ (by simpa using hrk), ih]
        by_cases hk : k = i.stock_number
        · rw [if_pos hk, if_pos hk, List.any_cons]
          simp [hr]
        · rw [if_neg hk, if_neg hk,
            List.find?_cons_of_neg _ (by simpa using hrk)]

theorem find?_upsertRow (rows : List CleanInventoryItem)
    (i : CleanInventoryItem) (k : String) :
    ((upsertRow rows i).find? (fun r => r.stock_number = k)) =
      if k = i.stock_number then some i
      else rows.find? (fun r => r.stock_number = k) := by
  unfold upsertRow
  split
  · rename_i hany
    rw [find?_replaceRow]
    by_cases hk : k = i.stock_number
    · rw [if_pos hk, if_pos hk, if_pos hany]
    · rw [if_neg hk, if_neg hk]
  · rename_i hany
    rw [List.find?_append]
    by_cases hk : k = i.stock_number
    · have h1 : rows.find? (fun r => r.stock_number = k) = none := by
        rw [List.find?_eq_none]
        intro x hx
        simp only [decide_eq_true_eq]
        intro hxk
        exact hany (List.any_eq_true.mpr ⟨x, hx, by simp [hxk, hk.symm]⟩)
      rw [if_pos hk, h1, List.find?_cons_of_pos _ (by simpa using hk.symm)]
      rfl
    · have h2 : ([i].find? (fun r => r.stock_number = k)) = none := by
        rw [List.find?_eq_none]
        intro x hx
        simp only [List.mem_singleton] at hx
        subst hx
        simp only [decide_eq_true_eq]
        exact fun h => hk h.symm
      rw [if_neg hk, h2]
      cases rows.find? (fun r => r.stock_number = k) <;> rfl

theorem mem_upsertRow (rows : List CleanInventoryItem)
    (i r' : CleanInventoryItem) (h : r' ∈ upsertRow rows i) :
    r' = i ∨ (r' ∈ rows ∧ r'.stock_number ≠ i.stock_number) := by
  unfold upsertRow at h
  split at h
  · rcases List.mem_map.mp h with ⟨r, hr, hrr⟩
    by_cases hrs : r.stock_number = i.stock_number
    · rw [if_pos hrs] at hrr
      exact Or.inl hrr.symm
    · rw [if_neg hrs] at hrr
      exact Or.inr ⟨hrr ▸ hr, hrr ▸ hrs⟩
  · rename_i hany
    rcases List.mem_append.mp h with h' | h'
    · refine Or.inr ⟨h', ?_⟩
      intro hk
      exact hany (List.any_eq_true.mpr ⟨r', h', by simpa using hk⟩)
    · simp only [List.mem_singleton] at h'
      exact Or.inl h'

theorem keys_upsertRow (rows : List CleanInventoryItem)
    (i : CleanInventoryItem)
    (h : (rows.map (fun r => r.stock_number)).Nodup) :
    ((upsertRow rows i).map (fun r => r.stock_number)).Nodup := by
  unfold upsertRow
  split
  · rw [List.map_map]
    have : rows.map ((fun r => r.stock_number) ∘
        (fun r => if r.stock_number = i.stock_number then i else r)) =
        rows.map (fun r => r.stock_number) := by
      refine List.map_congr_left ?_
      intro r _
      simp only [Function.comp_apply]
      by_cases hrs : r.stock_number = i.stock_number
      · rw [if_pos hrs, hrs]
      · rw [if_neg hrs]
    rw [this]
    exact h
  · rename_i hany
    rw [List.map_append, List.nodup_append]
    refine ⟨h, by simp, ?_⟩
    intro k hk
    simp only [List.map_cons, List.map_nil, List.mem_singleton]
    intro hk'
    rcases List.mem_map.mp hk with ⟨r, hr, hrk⟩
    exact hany (List.any_eq_true.mpr ⟨r, hr, by simp [hrk, hk']⟩)

theorem find?_foldl_upsertRow (batch : List CleanInventoryItem) :
    ∀ (rows : List CleanInventoryItem) (k : String),
    ((batch.foldl upsertRow rows).find? (fun r => r.stock_number = k)) =
      match batch.reverse.find? (fun i => i.stock_number = k) with
      | some i => some i
      | none => rows.find? (fun r => r.stock_number = k) := by
  induction batch using List.reverseRecOn with
  | nil => intro rows k; simp
  | append_singleton l x ih =>
    intro rows k
    rw [List.foldl_append, List.foldl_cons, List.foldl_nil, find?_upsertRow,
      List.reverse_append]
    simp only [List.reverse_cons, List.reverse_nil, List.nil_append,
      List.singleton_append]
    by_cases hk : k = x.stock_number
    · rw [if_pos hk, List.find?_cons_of_pos _ (by simpa using hk.symm)]
    · rw [if_neg hk, ih,
        List.find?_cons_of_neg _ (by simpa using fun h => hk h.symm)]

theorem mem_foldl_upsertRow (batch : List CleanInventoryItem) :
    ∀ (rows : List CleanInventoryItem) (r' : CleanInventoryItem),
    r' ∈ batch.foldl upsertRow rows →
    r' ∈ batch ∨ (r' ∈ rows ∧
      r'.stock_number ∉ batch.map (fun i => i.stock_number)) := by
  induction batch with
  | nil =>
    intro rows r' h
    exact Or.inr ⟨h, by simp⟩
  | cons i bs ih =>
    intro rows r' h
    rw [List.foldl_cons] at h
    rcases ih (upsertRow rows i) r' h with h' | ⟨h1, h2⟩
    · exact Or.inl (List.mem_cons_of_mem i h')
    · rcases mem_upsertRow rows i r' h1 with h'' | ⟨h3, h4⟩
      · exact Or.inl (h'' ▸ List.mem_cons_self i bs)
      · refine Or.inr ⟨h3, ?_⟩
        simp only [List.map_cons, List.mem_cons]
        push_neg
        exact ⟨h4, by simpa using h2⟩

theorem keys_foldl_upsertRow (batch : List CleanInventoryItem) :
    ∀ rows : List CleanInventoryItem,
    (rows.map (fun r => r.stock_number)).Nodup →
    ((batch.foldl upsertRow rows).map (fun r => r.stock_number)).Nodup := by
  induction batch with
  | nil => exact fun rows h => h
  | cons i bs ih =>
    intro rows h
    exact ih _ (keys_upsertRow rows i h)

theorem foldl_upsertRow_fixed (batch : List CleanInventoryItem)
    (s : List CleanInventoryItem) (h : ∀ i ∈ batch, upsertRow s i = s) :
    batch.foldl upsertRow s = s := by
  induction batch with
  | nil => rfl
  | cons i bs ih =>
    rw [List.foldl_cons, h i (List.mem_cons_self i bs)]
    exact ih (fun j hj => h j (List.mem_cons_of_mem i hj))

theorem markSold_nil (rows : List CleanInventoryItem) (now : String) :
    markSold rows [] now = rows := by
  unfold markSold
  have hid : ∀ r ∈ rows,
      (if r.stock_number ∈ ([] : List String) then
        { r with status := "Sold", updated_at := now } else r) = id r :=
    fun r _ => by simp
  rw [List.map_congr_left hid, List.map_id]

theorem keys_markSold (rows : List CleanInventoryItem) (removed : List String)
    (now : String) :
    (markSold rows removed now).map (fun r => r.stock_number) =
      rows.map (fun r => r.stock_number) := by
  unfold markSold
  rw [List.map_map]
  refine List.map_congr_left ?_
  intro r _
  simp only [Function.comp_apply]
  by_cases hr : r.stock_number ∈ removed
  · rw [if_pos hr]
  · rw [if_neg hr]

end UpsertLemmas

/-- Fields kept by the dedup pass of `upsertInventory` when keys are
already unique: the map round-trip is the identity. -/
theorem dedupeByStock_eq_self (items : List CleanInventoryItem)
    (h : (items.map (fun i => i.stock_number)).Nodup) :
    dedupeByStock items = items := by
  unfold dedupeByStock
  have h2 := foldl_listSet_eq_append (fun i => i.stock_number) items [] (by simp) h
  rw [show (items.foldl (fun m i => listSet m i.stock_number i) []) =
    [] ++ items.map (fun x => (x.stock_number, x)) from h2]
  rw [List.nil_append, List.map_map]
  exact (List.map_congr_left (fun x _ => rfl)).trans (List.map_id items)

/-- C3 (amended): one detect-and-apply run followed by a second run with
the identical batch emits no change events and leaves the store unchanged,
provided the batch has pairwise-distinct stock numbers and `Available`
status (as `cleanItems` output does after dedup) and the stored rows have
distinct, non-empty stock numbers (the storage unique key; an empty stock
number would be dropped from `removedStockNumbers` by `.filter(Boolean)`
and re-emit `REMOVED` forever). -/
theorem runDetectApply_idempotent (cid cn : String)
    (rows batch : List CleanInventoryItem) (t1 t2 : String)
    (hB : (batch.map (fun i => i.stock_number)).Nodup)
    (hA : ∀ i ∈ batch, i.status = "Available")
    (hR : (rows.map (fun r => r.stock_number)).Nodup)
    (hN : ∀ r ∈ rows, r.stock_number ≠ "") :
    (runDetectApply cid cn ((runDetectApply cid cn rows batch t1).2) batch t2).1 = [] ∧
    (runDetectApply cid cn ((runDetectApply cid cn rows batch t1).2) batch t2).2 =
      (runDetectApply cid cn rows batch t1).2 := by
  set E1 : List ExistingRow :=
    (rows.filter (fun r => r.status ≠ "Sold")).map toExistingRow with hE1def
  set C1 : List InventoryChange := (detectChanges cid cn E1 batch).changes with hC1def
  set REM : List String :=
    ((C1.filter (fun c => c.change_type = ChangeType.REMOVED)).map
      (fun c => c.stock_number)).filter (fun s => s ≠ "") with hREMdef
  set U : List CleanInventoryItem := batch.foldl upsertRow rows with hUdef
  set S1 : List CleanInventoryItem := markSold U REM t1 with hS1def
  have hs1 : (runDetectApply cid cn rows batch t1).2 = S1 := by
    show markSold (upsertState rows batch) REM t1 = S1
    rw [hS1def, hUdef]
    unfold upsertState
    rw [dedupeByStock_eq_self batch hB]
  have hsplitC1 : C1 = batch.filterMap (itemEvent cid cn (buildMap E1)) ++
      (buildMap E1).filterMap
        (removedEvent cid cn (batch.map (fun i => i.stock_number))) := rfl
  have hUkeys : (U.map (fun r => r.stock_number)).Nodup :=
    keys_foldl_upsertRow batch rows hR
  have hS1keys : (S1.map (fun r => r.stock_number)).Nodup := by
    rw [hS1def, keys_markSold]
    exact hUkeys
  have hRemSub : ∀ k ∈ REM, k ∉ batch.map (fun i => i.stock_number) := by
    intro k hk
    obtain hk' := (List.mem_filter.mp hk).1
    rcases List.mem_map.mp hk' with ⟨e, he, hek⟩
    have he1 := (List.mem_filter.mp he).1
    have hety : e.change_type = ChangeType.REMOVED := by
      simpa using (List.mem_filter.mp he).2
    rw [hsplitC1] at he1
    rcases List.mem_append.mp he1 with h | h
    · rcases List.mem_filterMap.mp h with ⟨x, _, hxe⟩
      exact absurd hety (itemEvent_spec cid cn _ x e hxe).2
    · rcases List.mem_filterMap.mp h with ⟨p, _, hpe⟩
      obtain ⟨hes, _, hnot⟩ := removedEvent_spec _ _ _ _ _ hpe
      exact hek ▸ hes ▸ hnot
  have hE1keys : (E1.map (fun e => e.stock_number)).Nodup := by
    rw [hE1def, List.map_map]
    exact ((List.filter_sublist rows).map (fun r => r.stock_number)).nodup hR
  have hRemFull : ∀ r ∈ rows, r.status ≠ "Sold" →
      r.stock_number ∉ batch.map (fun i => i.stock_number) →
      r.stock_number ∈ REM := by
    intro r hr hst hnb
    have hre : toExistingRow r ∈ E1 := by
      rw [hE1def]
      exact List.mem_map_of_mem _ (List.mem_filter.mpr ⟨hr, by simpa using hst⟩)
    have hmapentry : (r.stock_number, toExistingRow r) ∈ buildMap E1 := by
      rw [buildMap_eq_map_pair E1 hE1keys]
      exact List.mem_map_of_mem _ hre
    cases hx : removedEvent cid cn (batch.map (fun i => i.stock_number))
        (r.stock_number, toExistingRow r) with
    | none =>
      unfold removedEvent at hx
      rw [if_neg (by simpa using hnb)] at hx
      simp at hx
    | some ev =>
      obtain ⟨hes, hety, _⟩ := removedEvent_spec _ _ _ _ _ hx
      refine List.mem_filter.mpr ⟨?_, by simpa using hN r hr⟩
      refine List.mem_map.mpr ⟨ev, List.mem_filter.mpr ⟨?_, by simp [hety]⟩, hes⟩
      rw [hsplitC1]
      exact List.mem_append.mpr (Or.inr (List.mem_filterMap.mpr
        ⟨(r.stock_number, toExistingRow r), hmapentry, hx⟩))
  have hUfind : ∀ i ∈ batch,
      U.find? (fun r => r.stock_number = i.stock_number) = some i := by
    intro i hi
    rw [hUdef, find?_foldl_upsertRow batch rows i.stock_number,
      find?_reverse_of_key_nodup (fun x => x.stock_number) batch i
        i.stock_number hB hi rfl]
  have hiU : ∀ i ∈ batch, i ∈ U := fun i hi =>
    List.mem_of_find?_eq_some (hUfind i hi)
  have hUall : ∀ i ∈ batch, ∀ r' ∈ U, r'.stock_number = i.stock_number →
      r' = i := by
    intro i hi r' hr' hk
    exact eq_of_key_nodup (fun r => r.stock_number) U hUkeys r' i hr'
      (hiU i hi) hk
  have hiS1 : ∀ i ∈ batch, i ∈ S1 := by
    intro i hi
    have hnotrem : i.stock_number ∉ REM := fun h =>
      hRemSub i.stock_number h (List.mem_map_of_mem _ hi)
    rw [hS1def]
    unfold markSold
    have hfix : (if i.stock_number ∈ REM then
        { i with status := "Sold", updated_at := t1 } else i) = i :=
      if_neg hnotrem
    exact hfix ▸ List.mem_map_of_mem _ (hiU i hi)
  have hS1nonSold : ∀ x ∈ S1, x.status ≠ "Sold" → x ∈ batch := by
    intro x hx hxs
    rw [hS1def] at hx
    unfold markSold at hx
    rcases List.mem_map.mp hx with ⟨r, hrU, hrx⟩
    by_cases hrm : r.stock_number ∈ REM
    · rw [if_pos hrm] at hrx
      rw [← hrx] at hxs
      simp at hxs
    · rw [if_neg hrm] at hrx
      subst hrx
      rcases mem_foldl_upsertRow batch rows r hrU with h | ⟨hrrows, hrnb⟩
      · exact h
      · exact absurd (hRemFull r hrrows hxs hrnb) hrm
  set E2 : List ExistingRow :=
    (S1.filter (fun r => r.status ≠ "Sold")).map toExistingRow with hE2def
  have hE2keys : (E2.map (fun e => e.stock_number)).Nodup := by
    rw [hE2def, List.map_map]
    exact ((List.filter_sublist S1).map (fun r => r.stock_number)).nodup hS1keys
  have hE2mem : ∀ i ∈ batch, toExistingRow i ∈ E2 := by
    intro i hi
    rw [hE2def]
    exact List.mem_map_of_mem _
      (List.mem_filter.mpr ⟨hiS1 i hi, by simp [hA i hi]⟩)
  have hE2lookup : ∀ i ∈ batch,
      lookupM (buildMap E2) i.stock_number = some (toExistingRow i) :=
    fun i hi => lookupM_buildMap_of_mem E2 (toExistingRow i) hE2keys (hE2mem i hi)
  have hE2sub : ∀ e ∈ E2, ∃ i ∈ batch, e = toExistingRow i := by
    intro e he
    rw [hE2def] at he
    rcases List.mem_map.mp he with ⟨x, hx, hxe⟩
    have hxf := List.mem_filter.mp hx
    exact ⟨x, hS1nonSold x hxf.1 (by simpa using hxf.2), hxe.symm⟩
  have hphase1 : batch.filterMap (itemEvent cid cn (buildMap E2)) = [] := by
    rw [List.filterMap_eq_nil_iff]
    intro i hi
    unfold itemEvent
    rw [hE2lookup i hi]
    cases hp : i.price with
    | none => simp [toExistingRow, hp]
    | some p => simp [toExistingRow, hp, lt_irrefl]
  have hphase2 : (buildMap E2).filterMap
      (removedEvent cid cn (batch.map (fun i => i.stock_number))) = [] := by
    rw [List.filterMap_eq_nil_iff]
    intro p hp
    have hp' : p ∈ E2.foldl (fun m x =>
        listSet m ((fun e => e.stock_number) x) x) [] := hp
    rcases mem_foldl_listSet (fun e => e.stock_number) E2 [] p hp' with h | ⟨hp1, hp2⟩
    · cases h
    · rcases hE2sub p.2 hp2 with ⟨i, hi, hpe⟩
      unfold removedEvent
      rw [if_pos (by
        rw [hp1, hpe]
        exact List.mem_map_of_mem _ hi)]
  have hchanges2 : (detectChanges cid cn E2 batch).changes = [] := by
    show batch.filterMap (itemEvent cid cn (buildMap E2)) ++
      (buildMap E2).filterMap
        (removedEvent cid cn (batch.map (fun i => i.stock_number))) = []
    rw [hphase1, hphase2]
    rfl
  constructor
  · show (detectChanges cid cn
      ((((runDetectApply cid cn rows batch t1).2).filter
        (fun r => r.status ≠ "Sold")).map toExistingRow) batch).changes = []
    rw [hs1]
    exact hchanges2
  · show markSold (upsertState ((runDetectApply cid cn rows batch t1).2) batch)
      ((((detectChanges cid cn
        ((((runDetectApply cid cn rows batch t1).2).filter
          (fun r => r.status ≠ "Sold")).map toExistingRow) batch).changes.filter
        (fun c => c.change_type = ChangeType.REMOVED)).map
          (fun c => c.stock_number)).filter (fun s => s ≠ "")) t2 =
      (runDetectApply cid cn rows batch t1).2
    rw [hs1]
    have hrem2 : ((((detectChanges cid cn E2 batch).changes.filter
        (fun c => c.change_type = ChangeType.REMOVED)).map
          (fun c => c.stock_number)).filter (fun s => s ≠ "")) = [] := by
      rw [hchanges2]
      rfl
    rw [hrem2]
    have hup2 : upsertState S1 batch = S1 := by
      unfold upsertState
      rw [dedupeByStock_eq_self batch hB]
      refine foldl_upsertRow_fixed batch S1 ?_
      intro i hi
      unfold upsertRow
      rw [if_pos (List.any_eq_true.mpr ⟨i, hiS1 i hi, by simp⟩)]
      have : ∀ r ∈ S1, (if r.stock_number = i.stock_number then i else r) = r := by
        intro r hr
        by_cases hk : r.stock_number = i.stock_number
        · rw [if_pos hk]
          exact (eq_of_key_nodup (fun r => r.stock_number) S1 hS1keys r i hr
            (hiS1 i hi) hk).symm
        · rw [if_neg hk]
      rw [List.map_congr_left this]
      simp
    rw [hup2, markSold_nil]

/-- Counterexample to C3 as stated for arbitrary batches: with an empty
store and the duplicate-key batch `[A@900, A@800]`, the second identical
run still emits a `PRICE_INCREASE` — the first occurrence compares against
the deduplicated stored price 800 — so the re-run is not idempotent. -/
theorem runDetectApply_not_idempotent_counterexample :
    ((runDetectApply "c1" "dealer"
        ((runDetectApply "c1" "dealer" [] dupBatch "t1").2) dupBatch "t2").1.map
      (fun c => c.change_type)) = [ChangeType.PRICE_INCREASE] := by
  decide

/-- Witness for the amended C3 at a concrete input: store `{B@5}`, batch
`{A@900}`. -/
theorem runDetectApply_idempotent_witness :
    (runDetectApply "c1" "dealer"
        ((runDetectApply "c1" "dealer" [sampleItem "B" (some 5)]
          [sampleItem "A" (some 900)] "t1").2)
        [sampleItem "A" (some 900)] "t2").1 = [] ∧
    (runDetectApply "c1" "dealer"
        ((runDetectApply "c1" "dealer" [sampleItem "B" (some 5)]
          [sampleItem "A" (some 900)] "t1").2)
        [sampleItem "A" (some 900)] "t2").2 =
      (runDetectApply "c1" "dealer" [sampleItem "B" (some 5)]
        [sampleItem "A" (some 900)] "t1").2 :=
  runDetectApply_idempotent "c1" "dealer" [sampleItem "B" (some 5)]
    [sampleItem "A" (some 900)] "t1" "t2" (by decide) (by decide) (by decide)
    (by decide)

end CompetitorIntel
